import Mathlib

/-!
Verification of the MutationDiff core (src/enhanced_inputevents/mutation_diff.js).

Shallow embedding conventions:
* DOM nodes are identified by natural numbers (`Nat`); real nodes are compared
  by object identity, which the simulator mirrors by numeric identity.
* The JavaScript value lattice for sibling slots (`Node | null | undefined |
  SiblingPromise`) is the inductive type `Sib`.
* JavaScript `Map`s are insertion-ordered association lists.
* `MutatedNode` objects are mutable and may be referenced after removal from
  the floating map, so they live in an append-only arena (`Array MN`); every
  reference (floating map, sibling indexes, promise pointers) is an arena
  index.  A `SiblingPromise` is identified by the arena index of its origin
  record together with its direction; its single mutable field (`ptr`) lives
  in `TreeState.promPtr`.
* A thrown JavaScript exception is recorded in `TreeState.err`; once set, the
  remaining statements of the call do not run (each phase checks the flag),
  matching exception propagation.  The debug assertion block at the end of
  `mutation()` catches, logs and rethrows, hence it is modelled as a pure
  check whose failure sets `err`.
* Walk loops in the source are unbounded `while` loops over the sibling
  graphs; the embedding gives them fuel (an arena-size bound).  Exhausted
  fuel sets the distinguished error "fuel", which never occurs in any state
  reachable in this development; in the source, such a state would loop
  forever.
* `TreeState.c4` instruments `SiblingPromise.resume`: it counts the walk
  steps that read a mutated sibling slot holding another `SiblingPromise`
  (the source then calls `floating.get(promise)`, obtains `undefined`, and
  resolves with the promise object itself).
-/

namespace MDiff

/-- Sibling direction, the JS strings "prev" / "next". -/
inductive Dir where
  | prev
  | next
deriving DecidableEq, Repr

/-- The opposite direction. -/
def Dir.flip : Dir → Dir
  | .prev => .next
  | .next => .prev

/-- A value held in a prev/next sibling slot: a DOM node, null (end of
parent), undefined (never observed), or a pending SiblingPromise identified
by its origin record (arena index) and direction. -/
inductive Sib where
  | node (n : Nat)
  | nul
  | undef
  | promise (origin : Nat) (dir : Dir)
deriving DecidableEq, Repr

/-- JS truthiness of a sibling slot value (promise objects are truthy). -/
def Sib.truthy : Sib → Bool
  | .nul => false
  | .undef => false
  | _ => true

/-- A position triple. In the source this is a plain object that may lack the
prev/next properties (reading them yields undefined), so the defaults are
`Sib.undef`. -/
structure Pos where
  parent : Nat
  prev : Sib := .undef
  next : Sib := .undef
deriving DecidableEq, Repr

/-- Read a slot of a position triple. -/
def Pos.get (p : Pos) : Dir → Sib
  | .prev => p.prev
  | .next => p.next

/-- Write a slot of a position triple. -/
def Pos.set (p : Pos) : Dir → Sib → Pos
  | .prev, s => { p with prev := s }
  | .next, s => { p with next := s }

/-- MutatedNode: a node's position change record.  `original = none` means
the node did not exist in tracked scope at tracking start; `mutated = none`
means the node is presently removed. -/
structure MN where
  node : Nat
  original : Option Pos := none
  mutated : Option Pos := none
deriving DecidableEq, Repr

section Assoc

variable {κ α : Type} [DecidableEq κ]

/-- Lookup in an insertion-ordered association list (JS Map.get). -/
def alookup (l : List (κ × α)) (k : κ) : Option α :=
  match l with
  | [] => none
  | (k', v) :: t => if k' = k then some v else alookup t k

/-- JS Map.set: update in place if the key exists (keeping its insertion
position), otherwise append. -/
def aset (l : List (κ × α)) (k : κ) (v : α) : List (κ × α) :=
  match l with
  | [] => [(k, v)]
  | (k', v') :: t => if k' = k then (k, v) :: t else (k', v') :: aset t k v

/-- JS Map.delete. -/
def adel (l : List (κ × α)) (k : κ) : List (κ × α) :=
  match l with
  | [] => []
  | (k', v') :: t => if k' = k then t else (k', v') :: adel t k

theorem alookup_aset_self (l : List (κ × α)) (k : κ) (v : α) :
    alookup (aset l k v) k = some v := by
  induction l with
  | nil => simp [aset, alookup]
  | cons h t ih =>
    by_cases hk : h.1 = k <;> simp [aset, alookup, hk, ih]

theorem alookup_aset_ne (l : List (κ × α)) (k k' : κ) (v : α) (h : k ≠ k') :
    alookup (aset l k v) k' = alookup l k' := by
  induction l with
  | nil => simp only [aset, alookup, if_neg h]
  | cons hd t ih =>
    obtain ⟨k1, v1⟩ := hd
    by_cases hk : k1 = k
    · simp only [aset, if_pos hk, alookup, hk, if_neg h]
    · simp only [aset, if_neg hk, alookup, ih]

end Assoc

/-! ## PropertyCache

Per-node store of attribute / character-data / custom-property originals with
dirty bookkeeping.  Native keys are `Option String` (the source uses the
`null` key for character data); custom keys are modelled as `Nat`.  Values
are `Option String` (`none` is the JS `null` attribute value). -/

/-- One cached property: the original value and the dirty flag. -/
structure PEntry where
  value : Option String
  dirty : Bool
deriving DecidableEq, Repr

/-- PropertyCache: the source stores two Maps plus running counters
`_clean` / `_dirty` (JS numbers, here `Int`). -/
structure PropertyCache where
  native : List (Option String × PEntry) := []
  custom : List (Nat × PEntry) := []
  cleanCount : Int := 0
  dirtyCount : Int := 0
deriving DecidableEq, Repr

/-- Total size of the cache (native.size + custom.size). -/
def PropertyCache.size (c : PropertyCache) : Nat :=
  c.native.length + c.custom.length

/-- Core of `PropertyCache.mark` acting on one of the two maps and the two
counters; returns the updated map and counters.  Mirrors the source: a first
observation stores the old value with `dirty = (value !== old_value)`; later
observations compare against the stored original and adjust the counters when
the dirty flag flips. -/
def markMap {κ : Type} [DecidableEq κ] (m : List (κ × PEntry))
    (cleanCount dirtyCount : Int) (key : κ) (value old : Option String) :
    List (κ × PEntry) × Int × Int :=
  match alookup m key with
  | none =>
    let dirty : Bool := value ≠ old
    (aset m key ⟨old, dirty⟩,
     if dirty then cleanCount else cleanCount + 1,
     if dirty then dirtyCount + 1 else dirtyCount)
  | some props =>
    let dirty : Bool := value ≠ props.value
    if dirty != props.dirty then
      let change : Int := if dirty then 1 else -1
      (aset m key ⟨props.value, dirty⟩, cleanCount - change, dirtyCount + change)
    else (m, cleanCount, dirtyCount)

/-- `mark("native", key, value, old_value)`. -/
def PropertyCache.markNative (c : PropertyCache) (key : Option String)
    (value old : Option String) : PropertyCache :=
  let r := markMap c.native c.cleanCount c.dirtyCount key value old
  { c with native := r.1, cleanCount := r.2.1, dirtyCount := r.2.2 }

/-- `mark("custom", key, value, old_value)`. -/
def PropertyCache.markCustom (c : PropertyCache) (key : Nat)
    (value old : Option String) : PropertyCache :=
  let r := markMap c.custom c.cleanCount c.dirtyCount key value old
  { c with custom := r.1, cleanCount := r.2.1, dirtyCount := r.2.2 }

/-- `PropertyCache.synchronize` as written in the source:

  for (const [attr,o] of this.native.values()) ...
  for (const [key,o] of this.custom.values()) ...

Each loop iterates over the Map's values, which are the plain entry objects;
array-destructuring a non-iterable plain object throws a TypeError on the
first iteration, so the call throws whenever the corresponding map is
nonempty.  With both maps empty it falls through to the counter reset and
returns `this._dirty` (zero). -/
def PropertyCache.synchronize (c : PropertyCache) :
    Except String (PropertyCache × Int) :=
  if c.native ≠ [] then
    .error "TypeError: object is not iterable"
  else if c.custom ≠ [] then
    .error "TypeError: object is not iterable"
  else
    let c' := { c with cleanCount := 0, dirtyCount := (c.size : Int) }
    .ok (c', c'.dirtyCount)

/-- A DOM write performed while reverting node properties. -/
inductive RevertAction where
  | setData (node : Nat) (value : Option String)
  | removeAttr (node : Nat) (name : String)
  | setAttr (node : Nat) (name : String) (value : String)
deriving DecidableEq, Repr

/-- `PropertyCache.revert(node, custom_revert)`.  The native loop restores
every dirty native entry (data assignment for the null key, attribute removal
for null originals, attribute set otherwise).  The custom branch reads
`props.custom`, but no binding named `props` is in scope in this method (the
cache is `this`), so as soon as a truthy `custom_revert` callback is supplied
the method throws a ReferenceError, after the native writes and before any
callback invocation.  The callback itself is therefore never invoked and is
modelled by the flag `hasCustomRevert`.  Returns the performed writes and the
thrown error, if any. -/
def PropertyCache.revert (c : PropertyCache) (node : Nat)
    (hasCustomRevert : Bool) : List RevertAction × Option String :=
  let acts := c.native.filterMap fun kv =>
    if !kv.2.dirty then none
    else match kv.1 with
      | none => some (.setData node kv.2.value)
      | some attr =>
        match kv.2.value with
        | none => some (.removeAttr node attr)
        | some v => some (.setAttr node attr v)
  if hasCustomRevert then
    (acts, some "ReferenceError: props is not defined")
  else (acts, none)

/-! ## TreeMutations state -/

/-- Which of the two position triples / sibling indexes is addressed. -/
inductive Mode where
  | original
  | mutated
deriving DecidableEq, Repr

/-- Read the position triple of a record for a mode. -/
def MN.getMode (mn : MN) : Mode → Option Pos
  | .original => mn.original
  | .mutated => mn.mutated

/-- Write the position triple of a record for a mode. -/
def MN.setMode (mn : MN) : Mode → Option Pos → MN
  | .original, p => { mn with original := p }
  | .mutated, p => { mn with mutated := p }

/-- SiblingIndex: sibling node (key) to owning record (arena index), one map
per side.  Only plain nodes are indexed (null / undefined / promises are
not). -/
structure SIdx where
  prev : List (Nat × Nat) := []
  next : List (Nat × Nat) := []
deriving DecidableEq, Repr

/-- The map of one side. -/
def SIdx.side (g : SIdx) : Dir → List (Nat × Nat)
  | .prev => g.prev
  | .next => g.next

/-- Replace the map of one side. -/
def SIdx.setSide (g : SIdx) : Dir → List (Nat × Nat) → SIdx
  | .prev, m => { g with prev := m }
  | .next, m => { g with next := m }

/-- The key under which a sibling value is indexed, if any
(JS: sibling && !(sibling instanceof SiblingPromise)). -/
def sibIndexable : Sib → Option Nat
  | .node n => some n
  | _ => none

/-- The whole TreeMutations state (see the module docstring for the
modelling of object identity, promises, exceptions and instrumentation). -/
structure TreeState where
  arena : Array MN := #[]
  floating : List (Nat × Nat) := []
  origIdx : SIdx := {}
  mutIdx : SIdx := {}
  promPtr : List ((Nat × Dir) × Option Nat) := []
  c4 : Nat := 0
  err : Option String := none
deriving DecidableEq, Repr

instance : Inhabited MN := ⟨⟨0, none, none⟩⟩

/-- Dereference an arena index. -/
def TreeState.recOf (σ : TreeState) (i : Nat) : MN :=
  σ.arena.getD i default

/-- Overwrite an arena cell. -/
def TreeState.setRec (σ : TreeState) (i : Nat) (mn : MN) : TreeState :=
  { σ with arena := σ.arena.setD i mn }

/-- floating.get(node): the arena index of the live record for a node. -/
def TreeState.floatGet (σ : TreeState) (n : Nat) : Option Nat :=
  alookup σ.floating n

/-- floating.set(node, mn). -/
def TreeState.floatSet (σ : TreeState) (n i : Nat) : TreeState :=
  { σ with floating := aset σ.floating n i }

/-- floating.delete(node). -/
def TreeState.floatDel (σ : TreeState) (n : Nat) : TreeState :=
  { σ with floating := adel σ.floating n }

/-- The storage size of the tree (floating.size). -/
def TreeState.size (σ : TreeState) : Nat := σ.floating.length

/-- Read one of the two sibling indexes. -/
def TreeState.getIdx (σ : TreeState) : Mode → SIdx
  | .original => σ.origIdx
  | .mutated => σ.mutIdx

/-- Write one of the two sibling indexes. -/
def TreeState.setIdx (σ : TreeState) : Mode → SIdx → TreeState
  | .original, g => { σ with origIdx := g }
  | .mutated, g => { σ with mutIdx := g }

/-- mn.original?.parent === parent. -/
def TreeState.origParentIs (σ : TreeState) (i parent : Nat) : Bool :=
  match (σ.recOf i).original with
  | some o => o.parent = parent
  | none => false

/-- Allocate a fresh MutatedNode, returning its arena index. -/
def TreeState.newRec (σ : TreeState) (mn : MN) : TreeState × Nat :=
  ({ σ with arena := σ.arena.push mn }, σ.arena.size)

/-- Set a JS error (a throw); later phases are skipped once set. -/
def TreeState.fail (σ : TreeState) (e : String) : TreeState :=
  { σ with err := some e }

/-- Lift an Option Nat (Node | null) argument into a sibling value. -/
def optSib : Option Nat → Sib
  | some n => .node n
  | none => .nul

/-- SiblingIndex.remove(node): drop the record's indexed siblings. -/
def TreeState.idxRemove (σ : TreeState) (mode : Mode) (i : Nat) : TreeState :=
  match (σ.recOf i).getMode mode with
  | none => σ
  | some op =>
    let g := σ.getIdx mode
    let g := match sibIndexable op.prev with
      | some n => g.setSide .prev (adel (g.side .prev) n)
      | none => g
    let g := match sibIndexable op.next with
      | some n => g.setSide .next (adel (g.side .next) n)
      | none => g
    σ.setIdx mode g

/-- SiblingIndex.add(node): index the record's node siblings. -/
def TreeState.idxAdd (σ : TreeState) (mode : Mode) (i : Nat) : TreeState :=
  match (σ.recOf i).getMode mode with
  | none => σ
  | some op =>
    let g := σ.getIdx mode
    let g := match sibIndexable op.prev with
      | some n => g.setSide .prev (aset (g.side .prev) n i)
      | none => g
    let g := match sibIndexable op.next with
      | some n => g.setSide .next (aset (g.side .next) n i)
      | none => g
    σ.setIdx mode g

/-- SiblingIndex.update(node, sibling, side, parent): set one sibling slot of
a record, lazily creating the position triple ({parent}) when it is still
null, and fix up the index for that side.  No-op when the new sibling is
identical to the old one. -/
def TreeState.idxUpdate (σ : TreeState) (mode : Mode) (i : Nat) (sibling : Sib)
    (side : Dir) (parentHint : Nat := 0) : TreeState :=
  let mn := σ.recOf i
  let op := match mn.getMode mode with
    | some op => op
    | none => { parent := parentHint }
  let old := op.get side
  if old = sibling then σ
  else
    let σ := σ.setRec i (mn.setMode mode (some (op.set side sibling)))
    let g := σ.getIdx mode
    let g := match sibIndexable old with
      | some n => g.setSide side (adel (g.side side) n)
      | none => g
    let g := match sibIndexable sibling with
      | some n => g.setSide side (aset (g.side side) n i)
      | none => g
    σ.setIdx mode g

/-! ## SiblingPromise -/

/-- SiblingPromise.resolve(node): write the found sibling into
origin.original[dir] through the original-side SiblingIndex update.  `key` is
(arena index of the origin record, direction). -/
def SPResolve (σ : TreeState) (key : Nat × Dir) (node : Sib) : TreeState :=
  σ.idxUpdate .original key.1 node key.2

/-- The traversal pointer of a promise. -/
def TreeState.ptrOf (σ : TreeState) (key : Nat × Dir) : Option Nat :=
  (alookup σ.promPtr key).getD none

/-- Set the traversal pointer of a promise. -/
def TreeState.setPtr (σ : TreeState) (key : Nat × Dir) (p : Option Nat) : TreeState :=
  { σ with promPtr := aset σ.promPtr key p }

/-- SiblingPromise.discard(): delete this.ptr.mutated[this.dir].  If the
pointer record's mutated triple is null the source dereferences null and
throws. -/
def SPDiscard (σ : TreeState) (key : Nat × Dir) : TreeState :=
  match σ.ptrOf key with
  | none => σ
  | some p =>
    match (σ.recOf p).mutated with
    | none => σ.fail "TypeError: cannot delete property of null"
    | some m => σ.setRec p ((σ.recOf p).setMode .mutated (some (m.set key.2 .undef)))

/-- The argument of SiblingPromise.resume: a MutatedNode, a Node, null, or
undefined. -/
inductive RArg where
  | mnRef (i : Nat)
  | nodeRef (n : Nat)
  | nulRef
  | undefRef
deriving DecidableEq, Repr

/-- The loop of SiblingPromise.resume.  `smn` is the current record
(undefined when the last slot value was not a live floating node) and
`nodeVal` the last slot value read.  When `smn` is undefined the source
resolves with `nodeVal` as the original sibling; if `nodeVal` is itself a
SiblingPromise this is a promise-vs-promise read during the walk, counted in
`c4` (the promise object itself then becomes the resolved sibling). -/
def resumeLoop (σ : TreeState) (key : Nat × Dir) :
    Nat → Option Nat → Sib → TreeState × Bool
  | 0, _, _ => (σ.fail "fuel", false)
  | _ + 1, none, nodeVal =>
    let σ := match nodeVal with
      | .promise _ _ => { σ with c4 := σ.c4 + 1 }
      | _ => σ
    (SPResolve σ key nodeVal, true)
  | fuel + 1, some i, _ =>
    let σ :=
      match (σ.recOf i).mutated with
      | none =>
        match (σ.recOf key.1).original with
        | some o => σ.setRec i ((σ.recOf i).setMode .mutated (some { parent := o.parent }))
        | none => σ.fail "TypeError: cannot read parent of null"
      | some _ => σ
    if σ.err.isSome then (σ, false)
    else
      let node := ((σ.recOf i).mutated.getD { parent := 0 }).get key.2
      match node with
      | .undef =>
        let σ := σ.setRec i ((σ.recOf i).setMode .mutated
          (some (((σ.recOf i).mutated.getD { parent := 0 }).set key.2 (.promise key.1 key.2))))
        let σ := σ.setPtr key (some i)
        (σ, false)
      | .nul => (SPResolve σ key .nul, true)
      | .node n => resumeLoop σ key fuel (σ.floatGet n) (.node n)
      | .promise o d =>
        -- floating.get(promise) is undefined, so the next iteration resolves
        -- with the promise object
        resumeLoop σ key fuel none (.promise o d)

/-- SiblingPromise.resume(node): walk the mutated sibling graph from `node`
in the promise's direction until a fixed sibling is found (resolve, true), or
an unknown slot is reached (attach and suspend, false). -/
def SPResume (σ : TreeState) (key : Nat × Dir) (start : RArg) : TreeState × Bool :=
  match start with
  | .nulRef => (SPResolve σ key .nul, true)
  | .mnRef i => resumeLoop σ key (σ.arena.size + 1) (some i) (.node (σ.recOf i).node)
  | .nodeRef n => resumeLoop σ key (σ.arena.size + 1) (σ.floatGet n) (.node n)
  | .undefRef => resumeLoop σ key (σ.arena.size + 1) none (Sib.undef : Sib)

/-! ## TreeMutations.mutation: batched ingest -/

/-- The loop-carried locals of mutation(): last seen fixed node, last pending
next-direction promise, the record of the window's prev endpoint, the two
revert-trigger flags, and the map of records whose promises got resolved
(insertion-ordered, values are the revert-check side flags). -/
structure ICtx where
  lastFixed : Option Sib := none
  lastProm : Option (Nat × Dir) := none
  prevMn : Option Nat := none
  revertPossible : Bool := false
  siblingsKnown : Bool := false
  resolvedL : List (Nat × Nat) := []
deriving DecidableEq, Repr

/-- handle_promises(node, handle_prev, handle_next): resolve or remember the
SiblingPromises sitting in the mutated sibling slots of the window node
`node`, stateful over `ICtx`.  Returns the node's record if it is floating
(the JS return value `mn`). -/
def handleProms (σ : TreeState) (c : ICtx) (node : Option Nat)
    (handlePrev handleNext : Bool) : TreeState × ICtx × Option Nat :=
  match node, node.bind σ.floatGet with
  | some _, some i =>
    let m := (σ.recOf i).mutated
    -- handle_prev branch
    let (σ, c) :=
      if handlePrev then
        match m with
        | none => (σ, c)
        | some mp =>
          match mp.get .prev with
          | .undef => (σ, { c with siblingsKnown := true })
          | .promise po pd =>
            match c.lastProm with
            | some lp =>
              -- joint resolve: promise -> <- promise
              let σ := SPResolve σ lp (.node (σ.recOf po).node)
              let σ := SPResolve σ (po, pd) (.node (σ.recOf lp.1).node)
              let c := { c with
                resolvedL := aset (aset c.resolvedL lp.1 0) po 0,
                lastProm := none }
              (σ, c)
            | none =>
              match c.lastFixed with
              | some lf =>
                -- resolve: fixed node <- promise
                let σ := SPResolve σ (po, pd) lf
                (σ, { c with resolvedL := aset c.resolvedL po 0 })
              | none =>
                -- resume: floating node <- first promise
                let start := match c.prevMn with
                  | some pm => RArg.mnRef pm
                  | none => RArg.undefRef
                let (σ, done) := SPResume σ (po, pd) start
                if done then (σ, { c with resolvedL := aset c.resolvedL po 0 })
                else (σ, c)
          | _ => (σ, c)
      else (σ, c)
    -- handle_next branch / resume of the pending promise at the next endpoint
    let (σ, c) :=
      if handleNext then
        match m with
        | none => (σ, c)
        | some mp =>
          match mp.get .next with
          | .undef => (σ, { c with siblingsKnown := true })
          | .promise po pd => (σ, { c with lastProm := some (po, pd) })
          | _ => (σ, c)
      else
        match c.lastProm with
        | some lp =>
          let (σ, done) := SPResume σ lp (.mnRef i)
          if done then (σ, { c with resolvedL := aset c.resolvedL lp.1 0 })
          else (σ, c)
        | none => (σ, c)
    (σ, c, some i)
  | _, _ =>
    -- not floating (or null): becomes the last fixed reference
    let c := { c with lastFixed := some (optSib node) }
    match c.lastProm with
    | some lp =>
      let σ := SPResolve σ lp (optSib node)
      (σ, { c with resolvedL := aset c.resolvedL lp.1 0, lastProm := none }, none)
    | none => (σ, c, none)

/-- The removed-nodes loop of mutation(): ingest each removal, returning the
newly floated (previously fixed) records in order. -/
def ingestRemoved (parent : Nat) :
    TreeState → ICtx → List Nat → List Nat → TreeState × ICtx × List Nat
  | σ, c, fixedAcc, [] => (σ, c, fixedAcc)
  | σ, c, fixedAcc, node :: rest =>
    let (σ, c, mnOpt) := handleProms σ c (some node) true true
    match mnOpt with
    | some i =>
      -- (floating) previously moved node
      let σ := σ.idxRemove .mutated i
      match (σ.recOf i).original with
      | none =>
        -- case: add + remove; ops cancel out
        let σ := σ.floatDel node
        ingestRemoved parent σ c fixedAcc rest
      | some o =>
        -- case: (remove + add)* + remove
        let σ := σ.setRec i ((σ.recOf i).setMode .mutated none)
        let c := if o.parent = parent then { c with revertPossible := true } else c
        ingestRemoved parent σ c fixedAcc rest
    | none =>
      -- (fixed) newly removed
      let (σ, i) := σ.newRec { node := node, original := some { parent := parent } }
      let σ := σ.floatSet node i
      ingestRemoved parent σ { c with revertPossible := true } (fixedAcc ++ [i]) rest

/-- mn?.mutated?.[d] === undefined (JS optional chaining: a missing record or
a null triple also yields undefined). -/
def ocUndef (σ : TreeState) (m : Option Nat) (d : Dir) : Bool :=
  match m with
  | none => true
  | some i =>
    match (σ.recOf i).mutated with
    | none => true
    | some p => p.get d = (Sib.undef : Sib)

/-- Set original sibling for the first/last newly removed node
(original_promise_sibling in the source): inherit an already indexed
original sibling, otherwise launch a SiblingPromise rooted at `fprev` in
`forward`, resuming at `hint`; if it suspends, the promise itself is stored
in the original slot. -/
def originalPromiseSibling (σ : TreeState) (fprev : Nat) (forward backward : Dir)
    (hint : RArg) : TreeState :=
  match alookup ((σ.getIdx .original).side backward) (σ.recOf fprev).node with
  | none =>
    let key := (fprev, forward)
    let σ := σ.setPtr key none
    let (σ, done) := SPResume σ key hint
    if done then σ
    else
      match (σ.recOf fprev).original with
      | some o => σ.setRec fprev ((σ.recOf fprev).setMode .original
          (some (o.set forward (.promise key.1 key.2))))
      | none => σ.fail "TypeError: cannot set property of null"
  | some sibIdx =>
    match (σ.recOf fprev).original with
    | some o => σ.setRec fprev ((σ.recOf fprev).setMode .original
        (some (o.set forward (.node (σ.recOf sibIdx).node))))
    | none => σ.fail "TypeError: cannot set property of null"

/-- The middle of the fixed-nodes loop: link two adjacent newly removed
records as each other's original siblings, or inherit the original siblings
recorded by earlier removals from in between them.  The lookup
this.original.next.get(fnext.node) is dereferenced with .node without a
null check in the source; when it is missing the call throws. -/
def linkAdjacentFixed (σ : TreeState) (fprev fnext : Nat) : TreeState :=
  match alookup ((σ.getIdx .original).side .prev) (σ.recOf fprev).node with
  | some sibIdx =>
    let σ :=
      match (σ.recOf fprev).original with
      | some o => σ.setRec fprev ((σ.recOf fprev).setMode .original
          (some (o.set .next (.node (σ.recOf sibIdx).node))))
      | none => σ.fail "TypeError: cannot set property of null"
    match alookup ((σ.getIdx .original).side .next) (σ.recOf fnext).node with
    | some entry =>
      (match (σ.recOf fnext).original with
       | some o => σ.setRec fnext ((σ.recOf fnext).setMode .original
           (some (o.set .prev (.node (σ.recOf entry).node))))
       | none => σ.fail "TypeError: cannot set property of null")
    | none => σ.fail "TypeError: cannot read node of undefined"
  | none =>
    let σ :=
      match (σ.recOf fprev).original with
      | some o => σ.setRec fprev ((σ.recOf fprev).setMode .original
          (some (o.set .next (.node (σ.recOf fnext).node))))
      | none => σ.fail "TypeError: cannot set property of null"
    match (σ.recOf fnext).original with
    | some o => σ.setRec fnext ((σ.recOf fnext).setMode .original
        (some (o.set .prev (.node (σ.recOf fprev).node))))
    | none => σ.fail "TypeError: cannot set property of null"

/-- The fixed-nodes chain: first node's backward original sibling, adjacent
links, last node's forward original sibling, indexing each record as the
loop advances. -/
def fixedChain (σ : TreeState) (fixedL : List Nat) (prevHint nextHint : RArg) :
    TreeState :=
  match fixedL with
  | [] => σ
  | f0 :: rest =>
    let σ := originalPromiseSibling σ f0 .prev .next prevHint
    let σ := linkLoop σ f0 rest
    if σ.err.isSome then σ else
    let last := (f0 :: rest).getLast (by simp)
    let σ := originalPromiseSibling σ last .next .prev nextHint
    σ.idxAdd .original last
where
  /-- for (fi = 1; ...): link fprev and fnext, index fprev, advance. -/
  linkLoop : TreeState → Nat → List Nat → TreeState
  | σ, _, [] => σ
  | σ, fprev, fnext :: rest =>
    if σ.err.isSome then σ else
    let σ := linkAdjacentFixed σ fprev fnext
    let σ := σ.idxAdd .original fprev
    linkLoop σ fnext rest

/-- The added-nodes loop of mutation(): create or refresh a record for every
added node, set its mutated triple from the window sequence (the previous
element of the added list, falling back to the window prev; the next element,
falling back to the window next), and collect the re-added records that
returned to their original parent as revert candidates. -/
def ingestAdded (σ : TreeState) (parent : Nat) (added : List Nat)
    (prevS nextS : Option Nat) : TreeState × List Nat :=
  go σ [] (optSib prevS) added
where
  go (σ : TreeState) (cands : List Nat) (prevV : Sib) :
      List Nat → TreeState × List Nat
  | [] => (σ, cands)
  | node :: rest =>
    let (σ, i, cands) :=
      match σ.floatGet node with
      | none =>
        let (σ, i) := σ.newRec { node := node }
        (σ.floatSet node i, i, cands)
      | some i =>
        match (σ.recOf i).original with
        | none => (σ.fail "TypeError: cannot read parent of null", i, cands)
        | some o =>
          if o.parent = parent then (σ, i, cands ++ [i]) else (σ, i, cands)
    if σ.err.isSome then (σ, cands) else
    let nextV := match rest.head? with
      | some n => Sib.node n
      | none => optSib nextS
    let σ := σ.setRec i ((σ.recOf i).setMode .mutated
      (some { parent := parent, prev := prevV, next := nextV }))
    let σ := σ.idxAdd .mutated i
    go σ cands (.node node) rest

/-! ## TreeMutations.revert_check (fixedness propagation) -/

/-- Hint argument of revert_check for one side: a MutatedNode to start a
search at, a known fixed anchor (node or null), or no information. -/
inductive RCArg where
  | mn (i : Nat)
  | node (n : Nat)
  | nul
  | undef
deriving DecidableEq, Repr

/-- mark_reverted: remove reverted records from the resolved map; clear the
side flag of records whose sibling was found incorrect, dropping them when
both sides failed.  (Every record enters the map with flags 0, so the masked
flags stay 0 and can never reach 3.) -/
def markRev (resolvedL : List (Nat × Nat)) (i : Nat) (reverted : Bool)
    (side : Option Dir) : List (Nat × Nat) :=
  match alookup resolvedL i with
  | none => resolvedL
  | some flags =>
    let flags := if reverted then flags
      else flags &&& (if side = some Dir.prev then 1 else 2)
    if reverted || flags = 3 then adel resolvedL i
    else aset resolvedL i flags

/-- Result of the fixed_anchor search: a fixed anchor value (node or null),
the first floating same-parent record, or nothing. -/
inductive Anchor where
  | fixedA (s : Sib)
  | floatA (i : Nat)
  | noneA
deriving DecidableEq, Repr

/-- The traversal loop of fixed_anchor: follow mutated[dir] from the current
record until a fixed node, a same-parent floating record, or an unknown slot. -/
def anchorLoop (σ : TreeState) (parent : Nat) (dir : Dir) :
    Nat → Nat → Anchor
  | 0, _ => .noneA
  | fuel + 1, cur =>
    match (σ.recOf cur).mutated with
    | none => .noneA
    | some m =>
      match m.get dir with
      | .undef => .noneA
      | .promise _ _ => .noneA
      | .nul => .fixedA .nul
      | .node n =>
        match σ.floatGet n with
        | none => .fixedA (.node n)
        | some j =>
          if σ.origParentIs j parent then .floatA j
          else anchorLoop σ parent dir fuel j

/-- fixed_anchor(mn, exclusive, dir): search for a fixed anchor on one side
of the candidates.  `exclusive` is the boundary candidate (undefined when the
candidate list is empty); an argument equal to it means the caller knows
there is no anchor on this side. -/
def fixedAnchor (σ : TreeState) (parent : Nat) (a : RCArg)
    (exclusive : Option Nat) (dir : Dir) : Anchor :=
  let same : Bool := match a, exclusive with
    | .mn i, some j => i = j
    | .undef, none => true
    | _, _ => false
  if same then .noneA
  else
    match a with
    | .nul => .fixedA .nul
    | .node n => .fixedA (.node n)
    | .undef =>
      match exclusive with
      | some j => anchorLoop σ parent dir (σ.arena.size + 1) j
      | none => .noneA
    | .mn i =>
      if σ.origParentIs i parent then .floatA i
      else anchorLoop σ parent dir (σ.arena.size + 1) i

/-- The extend argument of propagate: continue with the sibling walk (true),
stop at the candidates (false), continue inclusively from a record, or stop
because the caller saw a fixed node there. -/
inductive ExtArg where
  | tru
  | fls
  | mn (i : Nat)
  | node (n : Nat)
  | nul
deriving DecidableEq, Repr

/-- mark_fixed inside propagate: the record leaves the floating set and both
indexes, its forward original-side promise (if any) is discarded, and it
becomes the new fixed reference; the callback records the reversion. -/
def markFixed (σ : TreeState) (resolvedL : List (Nat × Nat)) (i : Nat)
    (fwd : Dir) : TreeState × List (Nat × Nat) × Sib :=
  let fixed := Sib.node (σ.recOf i).node
  let σ := σ.floatDel (σ.recOf i).node
  let σ := σ.idxRemove .original i
  let σ := σ.idxRemove .mutated i
  let σ := match ((σ.recOf i).original.getD { parent := 0 }).get fwd with
    | .promise o d => SPDiscard σ (o, d)
    | _ => σ
  (σ, markRev resolvedL i true none, fixed)

/-- The candidates loop of propagate: walk candidates from idx towards
endIdx, marking matching records fixed; stops at the first candidate whose
backward original sibling does not match the running fixed reference.
Returns the updated state, the index the loop stopped at (JS return value),
and the JS loop variable mn after the loop (for the extension phase). -/
def propCands (σ : TreeState) (resolvedL : List (Nat × Nat))
    (candidates : List Nat) (fixed : Sib) (idx endIdx : Int) (inc : Int)
    (fwd bwd : Dir) (lastMn : Option Nat) (fuel : Nat) :
    TreeState × List (Nat × Nat) × Sib × Option Int × Option Nat :=
  match fuel with
  | 0 => (σ.fail "fuel", resolvedL, fixed, none, lastMn)
  | fuel + 1 =>
    if idx = endIdx then (σ, resolvedL, fixed, none, lastMn)
    else
      match candidates.get? idx.toNat with
      | none => (σ.fail "TypeError: candidate undefined", resolvedL, fixed, none, lastMn)
      | some i =>
        match (σ.recOf i).original with
        | none => (σ.fail "TypeError: cannot read sibling of null", resolvedL, fixed, none, lastMn)
        | some o =>
          if o.get bwd ≠ fixed then
            (σ, markRev resolvedL i false (some bwd), fixed, some idx, lastMn)
          else
            let (σ, resolvedL, fixed) := markFixed σ resolvedL i fwd
            propCands σ resolvedL candidates fixed (idx + inc) endIdx inc fwd bwd (some i) fuel

/-- The extension walk of propagate: starting from the record after the
candidates, keep following mutated[fwd], skipping floating records that
originated in another parent, marking matching same-parent records fixed
until an unknown or fixed sibling stops the walk. -/
def propExtend (σ : TreeState) (resolvedL : List (Nat × Nat)) (parent : Nat)
    (fixed : Sib) (fwd bwd : Dir) : Nat → Nat → TreeState × List (Nat × Nat)
  | 0, _ => (σ.fail "fuel", resolvedL)
  | fuel + 1, cur =>
    -- do { sibling = mn.mutated[fwd]; ... } while (mn.original?.parent !== parent)
    match (σ.recOf cur).mutated with
    | none => (σ.fail "TypeError: cannot read sibling of null", resolvedL)
    | some m =>
      match m.get fwd with
      | .undef => (σ, resolvedL)
      | .nul => (σ, resolvedL)
      | .promise _ _ => (σ, resolvedL)
      | .node n =>
        match σ.floatGet n with
        | none => (σ, resolvedL)
        | some j =>
          if !(σ.origParentIs j parent) then
            propExtend σ resolvedL parent fixed fwd bwd fuel j
          else
            match (σ.recOf j).original with
            | none => (σ.fail "TypeError: cannot read sibling of null", resolvedL)
            | some o =>
              if o.get bwd ≠ fixed then (σ, markRev resolvedL j false (some bwd))
              else
                let (σ, resolvedL, fixed) := markFixed σ resolvedL j fwd
                propExtend σ resolvedL parent fixed fwd bwd fuel j

/-- propagate(fixed, idx, end_idx, forward_dir, backward_dir, extend):
propagate fixedness through the candidates and, when all of them reverted,
beyond them according to `extend`.  Returns the stopping index (null when
every candidate was marked fixed). -/
def propagate (σ : TreeState) (resolvedL : List (Nat × Nat))
    (candidates : List Nat) (parent : Nat) (fixed0 : Sib) (idx endIdx : Int)
    (fwd bwd : Dir) (extend : ExtArg) :
    TreeState × List (Nat × Nat) × Option Int :=
  let inc : Int := if idx < endIdx then 1 else if endIdx < idx then -1 else 0
  let (σ, resolvedL, fixed, stopped, lastMn) :=
    propCands σ resolvedL candidates fixed0 idx endIdx inc fwd bwd none
      ((idx - endIdx).natAbs + 1)
  if σ.err.isSome then (σ, resolvedL, stopped)
  else
    match stopped with
    | some i => (σ, resolvedL, some i)
    | none =>
      match extend with
      | .fls => (σ, resolvedL, none)
      | .tru =>
        match lastMn with
        | none => (σ.fail "TypeError: cannot read mutated of undefined", resolvedL, none)
        | some cur =>
          let (σ, resolvedL) := propExtend σ resolvedL parent fixed fwd bwd (σ.arena.size + 1) cur
          (σ, resolvedL, none)
      | .mn i =>
        if σ.origParentIs i parent then
          match (σ.recOf i).original with
          | none => (σ.fail "TypeError: cannot read sibling of null", resolvedL, none)
          | some o =>
            if o.get bwd ≠ fixed then (σ, markRev resolvedL i false (some bwd), none)
            else
              let (σ, resolvedL, fixed) := markFixed σ resolvedL i fwd
              let (σ, resolvedL) := propExtend σ resolvedL parent fixed fwd bwd (σ.arena.size + 1) i
              (σ, resolvedL, none)
        else
          let (σ, resolvedL) := propExtend σ resolvedL parent fixed fwd bwd (σ.arena.size + 1) i
          (σ, resolvedL, none)
      | _ => (σ, resolvedL, none)

/-- revert_check(candidates, parent, cbk, prev, next): check whether the
candidates (and their neighbourhood) have returned to their original
positions, propagating from a fixed anchor on the next side, then from the
prev side.  The callback is mark_reverted over the resolved map. -/
def revertCheck (σ : TreeState) (resolvedL : List (Nat × Nat))
    (candidates : List Nat) (parent : Nat) (prevA nextA : RCArg) :
    TreeState × List (Nat × Nat) :=
  let anchor := fixedAnchor σ parent nextA (candidates.getLast?) .next
  let afterNext :
      Option ((TreeState × List (Nat × Nat)) ⊕
        (TreeState × List (Nat × Nat) × List Nat × Option Int)) :=
    match anchor with
    | .noneA => some (.inr (σ, resolvedL, candidates, none))
    | .floatA j => some (.inr (σ, resolvedL, candidates ++ [j], none))
    | .fixedA s =>
      let ext : ExtArg := match prevA with
        | .undef => .tru
        | .mn i => .mn i
        | .node n => .node n
        | .nul => .nul
      let (σ, resolvedL, r) :=
        propagate σ resolvedL candidates parent s ((candidates.length : Int) - 1)
          (-1) .prev .next ext
      if σ.err.isSome then some (.inl (σ, resolvedL))
      else
        match r with
        | none => some (.inl (σ, resolvedL))
        | some i => some (.inr (σ, resolvedL, candidates, some i))
  match afterNext with
  | some (.inl done) => done
  | some (.inr (σ, resolvedL, candidates, nextEndIdx)) =>
    if candidates.isEmpty then (σ, resolvedL)
    else
      match fixedAnchor σ parent prevA (candidates.head?) .prev with
      | .fixedA s =>
        let ext : ExtArg := if nextEndIdx = none then .tru else .fls
        let endIdx : Int := match nextEndIdx with
          | none => (candidates.length : Int)
          | some i => i + 1
        let (σ, resolvedL, _) :=
          propagate σ resolvedL candidates parent s 0 endIdx .next .prev ext
        (σ, resolvedL)
      | _ => (σ, resolvedL)
  | none => (σ, resolvedL)

/-! ## The debug validity assertion run at the end of mutation()

The source wraps `this.#assert_valid_state()` in a try/catch that logs and
rethrows, so a failing check makes `mutation` throw after all its state
changes are done. -/

/-- References to one promise found in the records' sibling slots. -/
structure PromRefs where
  mutatedRefs : List Nat := []
  originalRefs : List Nat := []
deriving DecidableEq, Repr

/-- One slot inspection of the SiblingIndex checking pass: on a node sibling
the owning record must be indexed under it; promise siblings are collected;
null/undefined/promise siblings are never indexed (their index lookup cannot
hit, the node-keyed maps hold only nodes, so that source check is vacuous
here). -/
def slotCheck (σ : TreeState) (i : Nat) (mode : Mode) (dir : Dir)
    (proms : List ((Nat × Dir) × PromRefs)) :
    Option String × List ((Nat × Dir) × PromRefs) :=
  match (σ.recOf i).getMode mode with
  | none => (none, proms)
  | some pos =>
    match pos.get dir with
    | .node n =>
      if alookup ((σ.getIdx mode).side dir) n = some i then (none, proms)
      else (some "indexed sibling mismatch", proms)
    | .promise o d =>
      let refs := (alookup proms (o, d)).getD {}
      let refs := match mode with
        | .mutated => { refs with mutatedRefs := refs.mutatedRefs ++ [i] }
        | .original => { refs with originalRefs := refs.originalRefs ++ [i] }
      (none, aset proms (o, d) refs)
    | _ => (none, proms)

/-- The first assertion pass over all floating records: check the four index
maps against the records and collect the live promises with their referrers
(source iteration order: records in insertion order, original before
mutated, prev before next). -/
def idxPromPass (σ : TreeState) :
    List (Nat × Nat) → List ((Nat × Dir) × PromRefs) →
    Option String × List ((Nat × Dir) × PromRefs)
  | [], proms => (none, proms)
  | (_, i) :: rest, proms =>
    let step := [(Mode.original, Dir.prev), (Mode.original, Dir.next),
                 (Mode.mutated, Dir.prev), (Mode.mutated, Dir.next)]
    let r := step.foldl (fun acc md =>
      match acc with
      | (some e, proms) => (some e, proms)
      | (none, proms) => slotCheck σ i md.1 md.2 proms) (none, proms)
    match r with
    | (some e, proms) => (some e, proms)
    | (none, proms) => idxPromPass σ rest proms

/-- The promise validity checks of the assertion. -/
def promChecks (σ : TreeState) : List ((Nat × Dir) × PromRefs) → Option String
  | [] => none
  | (key, refs) :: rest =>
    match σ.ptrOf key with
    | none => some "promise pointer is not MutatedNode"
    | some p =>
      if refs.mutatedRefs.isEmpty then some "promise doesn't have a mutated pointer"
      else if 1 < refs.mutatedRefs.length then some "promise has multiple mutated pointers"
      else if refs.mutatedRefs.head? ≠ some p then some "promise pointer is incorrect"
      else if refs.originalRefs.isEmpty then
        some "promise origin was resolved, but pointer still set"
      else if 1 < refs.originalRefs.length then some "promise has multiple origins"
      else promChecks σ rest

/-- The traversal of the assertion's check_anchor: walk mutated[dir] through
floating records that originated in another parent; when a fixed value is
reached and it equals the record's original sibling, the node's position is
reverted while the record is still floating, which the source asserts never
happens. -/
def checkAnchorLoop (σ : TreeState) (parent : Nat) (target : Sib) (dir : Dir) :
    Nat → Sib → Option String
  | 0, _ => some "fuel"
  | fuel + 1, sibling =>
    match (match sibling with | .node n => σ.floatGet n | _ => none) with
    | none => if target = sibling then some "node position is reverted" else none
    | some j =>
      if σ.origParentIs j parent then none
      else
        let s2 := match (σ.recOf j).mutated with
          | none => Sib.undef
          | some m => m.get dir
        match s2 with
        | .undef => none
        | .promise _ _ => none
        | s2 => checkAnchorLoop σ parent target dir fuel s2

/-- check_anchor(smn, dir) of the assertion. -/
def checkAnchor (σ : TreeState) (i : Nat) (dir : Dir) : Option String :=
  match (σ.recOf i).original, (σ.recOf i).mutated with
  | some o, some m =>
    checkAnchorLoop σ o.parent (o.get dir) dir (σ.arena.size + 1) (m.get dir)
  | _, _ => none

/-- The reversion pass of the assertion: every floating record presently in
its original parent must not be at its original position as seen through
fixed anchors. -/
def assertReverts (σ : TreeState) : List (Nat × Nat) → Option String
  | [] => none
  | (_, i) :: rest =>
    match (σ.recOf i).mutated with
    | none => assertReverts σ rest
    | some m =>
      match (σ.recOf i).original with
      | none => assertReverts σ rest
      | some o =>
        if m.parent ≠ o.parent then assertReverts σ rest
        else
          match checkAnchor σ i .prev with
          | some e => some e
          | none =>
            match checkAnchor σ i .next with
            | some e => some e
            | none => assertReverts σ rest

/-- assert_valid_state: index consistency, promise validity, and
no-unreverted-position checks, in source order. -/
def assertValidState (σ : TreeState) : Option String :=
  let r := idxPromPass σ σ.floating []
  match r.1 with
  | some e => some e
  | none =>
    match promChecks σ r.2 with
    | some e => some e
    | none => assertReverts σ σ.floating

/-! ## TreeMutations.mutation assembled -/

/-- The resume/search hint MutatedNode-or-node (JS prev_mn || prev). -/
def hintOf (mnOpt : Option Nat) (nodeOpt : Option Nat) : RArg :=
  match mnOpt with
  | some i => .mnRef i
  | none =>
    match nodeOpt with
    | some n => .nodeRef n
    | none => .nulRef

/-- The revert-check hint (JS prev_mn || prev as revert_check argument). -/
def rcOf (mnOpt : Option Nat) (nodeOpt : Option Nat) : RCArg :=
  match mnOpt with
  | some i => .mn i
  | none =>
    match nodeOpt with
    | some n => .node n
    | none => .nul

/-- The final loop over the resolved map: a separate revert check per
remaining promise-resolved record.  The source iterates the live Map while
mark_reverted deletes from it, so each step visits the first not yet visited
entry still present.  (Entries always carry flags 0, hence both side hints
are undefined.) -/
def resolvedPass (σ : TreeState) (parent : Nat) :
    Nat → List (Nat × Nat) → List Nat → TreeState
  | 0, _, _ => σ.fail "fuel"
  | fuel + 1, resolvedL, visited =>
    match resolvedL.find? (fun p => !visited.contains p.1) with
    | none => σ
    | some (i, flags) =>
      let (σ, resolvedL) := revertCheck σ resolvedL [i] parent
        (if flags &&& 1 ≠ 0 then .mn i else .undef)
        (if flags &&& 2 ≠ 0 then .mn i else .undef)
      if σ.err.isSome then σ
      else resolvedPass σ parent fuel resolvedL (visited ++ [i])

/-- The body of TreeMutations.mutation before its final try/assert block.
Follows the source step by step: window promise resolution and removal
ingest, original-sibling computation for newly floated nodes, window endpoint
updates, addition ingest, and the revert checks. -/
def mutationCore (σ : TreeState) (parent : Nat) (removed added : List Nat)
    (prevS nextS : Option Nat) : TreeState :=
  if σ.err.isSome then σ else
  let c : ICtx := {}
  let (σ, c, prevMn) := handleProms σ c prevS false true
  let c := { c with prevMn := prevMn }
  let (σ, c, fixedL) := ingestRemoved parent σ c [] removed
  let (σ, c, nextMn) := handleProms σ c nextS true false
  if σ.err.isSome then σ else
  let c := if !c.resolvedL.isEmpty then { c with siblingsKnown := true } else c
  let c := if c.siblingsKnown && ocUndef σ prevMn .prev && ocUndef σ nextMn .next
           then { c with siblingsKnown := false } else c
  let resolvedL := c.resolvedL.filter fun p =>
    match (σ.recOf p.1).mutated with
    | some m => m.parent = parent
    | none => false
  let σ := if fixedL.isEmpty then σ
    else fixedChain σ fixedL (hintOf prevMn prevS) (hintOf nextMn nextS)
  if σ.err.isSome then σ else
  let σ := match prevMn with
    | some i => σ.idxUpdate .mutated i
        (match added.head? with | some n => .node n | none => optSib nextS) .next parent
    | none => σ
  let σ := match nextMn with
    | some i => σ.idxUpdate .mutated i
        (match added.getLast? with | some n => .node n | none => optSib prevS) .prev parent
    | none => σ
  let (σ, candidates) := ingestAdded σ parent added prevS nextS
  if σ.err.isSome then σ else
  let (σ, resolvedL) :=
    if c.revertPossible || c.siblingsKnown || !candidates.isEmpty then
      revertCheck σ resolvedL candidates parent (rcOf prevMn prevS) (rcOf nextMn nextS)
    else (σ, resolvedL)
  if σ.err.isSome then σ else
  resolvedPass σ parent (resolvedL.length + 1) resolvedL []

/-- The final try/assert block of mutation(): when the body completed without
throwing, run assert_valid_state; its failure is rethrown (after all the
state changes of the call are in place). -/
def finalizeMutation (σ : TreeState) : TreeState :=
  if σ.err.isSome then σ else
  match assertValidState σ with
  | some e => σ.fail e
  | none => σ

/-- TreeMutations.mutation(parent, removed, added, prev, next): the batched
ingest followed by the validity assertion. -/
def mutation (σ : TreeState) (parent : Nat) (removed added : List Nat)
    (prevS nextS : Option Nat) : TreeState :=
  finalizeMutation (mutationCore σ parent removed added prevS nextS)

/-! ## MutationDiff facade -/

/-- The full MutationDiff state: per-node PropertyCaches plus the tree
mutations. -/
structure DiffState where
  props : List (Nat × PropertyCache) := []
  tree : TreeState := {}
deriving DecidableEq, Repr

/-- The read-only view of the live DOM that the facade queries (getAttribute
and CharacterData.data reads). -/
structure LiveDom where
  dataOf : Nat → Option String
  attrOf : Nat → String → Option String

namespace MutationDiff

/-- Bitmask filter members of MutationDiff.diff. -/
def ALL : Nat := 0xFFFF

/-- MUTATED filter bit. -/
def MUTATED : Nat := 0b10000

/-- ORIGINAL filter bit. -/
def ORIGINAL : Nat := 0b100000

/-- PROPERTY filter bits (DATA, ATTRIBUTE and CUSTOM together). -/
def PROPERTY : Nat := 0b111

/-- DATA filter bit. -/
def DATA : Nat := 0b1

/-- ATTRIBUTE filter bit (the constant the class defines). -/
def ATTRIBUTE : Nat := 0b10

/-- CUSTOM filter bit. -/
def CUSTOM : Nat := 0b100

/-- CHILDREN filter bit. -/
def CHILDREN : Nat := 0b1000

/-- The bits the attributes branch of diff() actually tests: the source
reads MutationDiff.ATTRIBUTES, a class property that is never defined (the
defined constant is ATTRIBUTE), so the read yields undefined and the
bitwise-and with the filter coerces it to 0, making the test always false. -/
def ATTRIBUTES : Nat := 0

/-- mutated(root = null): the tree has any floating record, or some
PropertyCache reports a nonzero dirty counter. -/
def mutatedNull (st : DiffState) : Bool :=
  if st.tree.size ≠ 0 then true
  else st.props.any fun p => p.2.dirtyCount ≠ 0

/-- An original and/or mutated value pair in the diff output; a side is
absent when the filter did not request it. -/
structure ValueDiff where
  original : Option (Option String) := none
  mutated : Option (Option String) := none
deriving DecidableEq, Repr

/-- The children part of the diff output: position triples (or null for a
side on which the node does not exist). -/
structure ChildrenDiff where
  original : Option (Option Pos) := none
  mutated : Option (Option Pos) := none
deriving DecidableEq, Repr

/-- The per-node entry of the diff output. -/
structure NodeLog where
  data : Option ValueDiff := none
  attrib : Option (List (String × ValueDiff)) := none
  custom : Option (List (Nat × ValueDiff)) := none
  children : Option ChildrenDiff := none
deriving DecidableEq, Repr

/-- The PropertyCache part of diff() for one node. -/
def diffPropsOne (filter : Nat) (dom : LiveDom)
    (customGetter : Option (Nat → Nat → Option String)) (node : Nat)
    (cache : PropertyCache) : Option NodeLog :=
  if cache.dirtyCount = 0 then none
  else
    let FORIGINAL := filter &&& ORIGINAL
    let FMUTATED := filter &&& MUTATED
    let log : NodeLog := {}
    -- data
    let (log, hasDiff) :=
      if filter &&& DATA ≠ 0 then
        match alookup cache.native none with
        | some op =>
          if op.dirty then
            let d : ValueDiff :=
              { original := if FORIGINAL ≠ 0 then some op.value else none,
                mutated := if FMUTATED ≠ 0 then some (dom.dataOf node) else none }
            ({ log with data := some d }, true)
          else (log, false)
        | none => (log, false)
      else (log, false)
    -- attributes: dead branch, see ATTRIBUTES
    let (log, hasDiff) :=
      if filter &&& ATTRIBUTES ≠ 0 then
        let attrs := cache.native.filterMap fun kv =>
          match kv.1 with
          | none => none
          | some key =>
            if kv.2.dirty then
              some (key,
                ({ original := if FORIGINAL ≠ 0 then some kv.2.value else none,
                   mutated := if FMUTATED ≠ 0 then some (dom.attrOf node key) else none }
                  : ValueDiff))
            else none
        if !attrs.isEmpty then ({ log with attrib := some attrs }, true)
        else (log, hasDiff)
      else (log, hasDiff)
    -- custom properties
    let (log, hasDiff) :=
      if filter &&& CUSTOM ≠ 0 then
        let cus := cache.custom.filterMap fun kv =>
          if kv.2.dirty then
            some (kv.1,
              ({ original := if FORIGINAL ≠ 0 then some kv.2.value else none,
                 mutated := match customGetter with
                   | some g => if FMUTATED ≠ 0 then some (g node kv.1) else none
                   | none => none } : ValueDiff))
          else none
        if !cus.isEmpty then ({ log with custom := some cus }, true)
        else (log, hasDiff)
      else (log, hasDiff)
    if hasDiff then some log else none

/-- diff(filter, custom_getter): the per-node map of differences.  Nothing is
emitted unless the filter requests the original or the mutated side; the
PROPERTY block walks the dirty caches, the CHILDREN block walks the floating
records, merging into existing entries. -/
def diff (filter : Nat) (dom : LiveDom)
    (customGetter : Option (Nat → Nat → Option String)) (st : DiffState) :
    List (Nat × NodeLog) :=
  let FORIGINAL := filter &&& ORIGINAL
  let FMUTATED := filter &&& MUTATED
  if FORIGINAL ≠ 0 ∨ FMUTATED ≠ 0 then
    let out : List (Nat × NodeLog) :=
      if filter &&& PROPERTY ≠ 0 then
        st.props.foldl (fun out p =>
          match diffPropsOne filter dom customGetter p.1 p.2 with
          | some log => aset out p.1 log
          | none => out) []
      else []
    if filter &&& CHILDREN ≠ 0 then
      st.tree.floating.foldl (fun out p =>
        let mn := st.tree.recOf p.2
        let log := (alookup out mn.node).getD {}
        let d : ChildrenDiff :=
          { original := if FORIGINAL ≠ 0 then some mn.original else none,
            mutated := if FMUTATED ≠ 0 then some mn.mutated else none }
        aset out mn.node { log with children := some d }) out
    else out
  else []

/-- The record type fed to record(): a MutationRecord. -/
structure MRecord where
  rtype : String
  target : Nat := 0
  attributeName : String := ""
  attributeNamespace : Option String := none
  oldValue : Option String := none
  removedNodes : List Nat := []
  addedNodes : List Nat := []
  previousSibling : Option Nat := none
  nextSibling : Option Nat := none

/-- The shared property-marking helper of the facade (get-or-create the
node's PropertyCache, then mark). -/
def propMark (st : DiffState) (node : Nat) (f : PropertyCache → PropertyCache) :
    DiffState :=
  let cache := (alookup st.props node).getD {}
  { st with props := aset st.props node (f cache) }

/-- attribute(node, key, old_value): marks with the current getAttribute
value.  (Named attributeMark here only because of a host-language keyword.) -/
def attributeMark (dom : LiveDom) (st : DiffState) (node : Nat) (key : String)
    (old : Option String) : DiffState :=
  propMark st node fun c => c.markNative (some key) (dom.attrOf node key) old

/-- data(node, old_value): marks the null key with the current node data. -/
def dataProp (dom : LiveDom) (st : DiffState) (node : Nat)
    (old : Option String) : DiffState :=
  propMark st node fun c => c.markNative none (dom.dataOf node) old

/-- children(parent, removed, added, prev, next): delegates to
TreeMutations.mutation. -/
def children (st : DiffState) (parent : Nat) (removed added : List Nat)
    (prevS nextS : Option Nat) : DiffState :=
  { st with tree := mutation st.tree parent removed added prevS nextS }

/-- record(r): dispatch on the record type.  The switch has no default
branch: a record whose type is not one of the three known strings falls
through and the state is returned unchanged, with no error raised. -/
def record (dom : LiveDom) (st : DiffState) (r : MRecord) : DiffState :=
  if r.rtype = "attributes" then
    let name := match r.attributeNamespace with
      | some ns => ns ++ ":" ++ r.attributeName
      | none => r.attributeName
    attributeMark dom st r.target name r.oldValue
  else if r.rtype = "characterData" then
    dataProp dom st r.target r.oldValue
  else if r.rtype = "childList" then
    children st r.target r.removedNodes r.addedNodes r.previousSibling r.nextSibling
  else st

/-! ### patch_grouped_children -/

/-- A group of adjacent nodes to move, in the shape yielded by
diff_grouped_children: the ordered nodes, the target parent (null for the
removed-nodes group), and the boundary siblings, which may be unknown
(undefined or a SiblingPromise). -/
structure Group where
  nodes : List Nat
  parent : Option Nat
  prev : Sib := .undef
  next : Sib := .undef
deriving DecidableEq, Repr

/-- A DOM movement performed by patch_grouped_children. -/
inductive Move where
  | before (sibling : Nat) (nodes : List Nat)
  | append (parent : Nat) (nodes : List Nat)
  | after (sibling : Nat) (nodes : List Nat)
  | prepend (parent : Nat) (nodes : List Nat)
deriving DecidableEq, Repr

/-- The result of patch_grouped_children: every group's nodes are removed
first; groups whose siblings are both unknown are skipped with a console
warning; the rest are inserted. -/
structure PatchResult where
  removals : List Nat
  warnings : Nat
  moves : List Move
deriving DecidableEq, Repr

/-- A sibling is unknown when it is undefined or a pending SiblingPromise
(null is a known position: the container edge). -/
def sibUnknown : Sib → Bool
  | .undef => true
  | .promise _ _ => true
  | _ => false

/-- The first phase of patch_grouped_children over one group: remove the
group's nodes; keep the group for insertion unless the parent is absent
(removed-group) or both siblings are unknown (warn and skip). -/
def patchPhase1 : List Group → List Nat × Nat × List (Group × Bool)
  | [] => ([], 0, [])
  | g :: rest =>
    let (rem, warn, add) := patchPhase1 rest
    match g.parent with
    | none => (g.nodes ++ rem, warn, add)
    | some _ =>
      let nextSet := !sibUnknown g.next
      if !nextSet && sibUnknown g.prev then
        (g.nodes ++ rem, warn + 1, add)
      else
        (g.nodes ++ rem, warn, (g, nextSet) :: add)

/-- The second phase: perform the node movements, each anchored on the known
side, falling back to append/prepend when that side is the container edge. -/
def patchMoves : List (Group × Bool) → List Move
  | [] => []
  | (g, nextSet) :: rest =>
    let mv :=
      if nextSet then
        match g.next with
        | .node k => Move.before k g.nodes
        | _ => Move.append (g.parent.getD 0) g.nodes
      else
        match g.prev with
        | .node k => Move.after k g.nodes
        | _ => Move.prepend (g.parent.getD 0) g.nodes
    mv :: patchMoves rest

/-- MutationDiff.patch_grouped_children(groups). -/
def patchGroupedChildren (groups : List Group) : PatchResult :=
  let (rem, warn, add) := patchPhase1 groups
  { removals := rem, warnings := warn, moves := patchMoves add }

/-- The per-group insertion semantics in the words of the specification: a
group without a parent produces no insertion; with a parent, the known next
sibling anchors a before-insertion (append when next is the container end);
otherwise a known prev sibling anchors an after-insertion (prepend when prev
is the container start); with both siblings unknown the group is skipped. -/
def groupMove (g : Group) : Option Move :=
  match g.parent with
  | none => none
  | some p =>
    if !sibUnknown g.next then
      some (match g.next with
        | .node k => Move.before k g.nodes
        | _ => Move.append p g.nodes)
    else if !sibUnknown g.prev then
      some (match g.prev with
        | .node k => Move.after k g.nodes
        | _ => Move.prepend p g.nodes)
    else none

/-- A group is skipped with a diagnostic exactly when it has a parent but
both boundary siblings are unknown. -/
def groupInsufficient (g : Group) : Bool :=
  g.parent.isSome && sibUnknown g.next && sibUnknown g.prev

end MutationDiff

/-! ## Dirty-counter bookkeeping lemmas (for the mutated() query) -/

/-- Number of dirty entries in one property map. -/
def dirtyLen {κ : Type} [DecidableEq κ] (m : List (κ × PEntry)) : Nat :=
  (m.filter fun kv => kv.2.dirty).length

/-- Number of dirty entries of a cache. -/
def dirtyEntries (c : PropertyCache) : Nat :=
  dirtyLen c.native + dirtyLen c.custom

/-- Some entry of the cache is dirty. -/
def cacheHasDirty (c : PropertyCache) : Bool :=
  (c.native.any fun kv => kv.2.dirty) || (c.custom.any fun kv => kv.2.dirty)

/-- The source's running _dirty counter agrees with the number of dirty
entries. -/
def dirtyInv (c : PropertyCache) : Prop :=
  c.dirtyCount = (dirtyEntries c : Int)

instance (c : PropertyCache) : Decidable (dirtyInv c) := by
  unfold dirtyInv
  infer_instance

theorem dirtyLen_cons {κ : Type} [DecidableEq κ] (hd : κ × PEntry)
    (t : List (κ × PEntry)) :
    dirtyLen (hd :: t) = (if hd.2.dirty then 1 else 0) + dirtyLen t := by
  by_cases h : hd.2.dirty <;> simp [dirtyLen, List.filter_cons, h, Nat.add_comm]

theorem dirtyLen_aset_notMem {κ : Type} [DecidableEq κ]
    (m : List (κ × PEntry)) (k : κ) (v : PEntry) (h : alookup m k = none) :
    dirtyLen (aset m k v) = dirtyLen m + (if v.dirty then 1 else 0) := by
  induction m with
  | nil =>
    simp only [aset, dirtyLen_cons]
    simp only [dirtyLen, List.filter_nil, List.length_nil]
    omega
  | cons hd t ih =>
    simp only [alookup] at h
    by_cases hk : hd.1 = k
    · simp [hk] at h
    · simp only [if_neg hk] at h
      simp only [aset, if_neg hk, dirtyLen_cons, ih h]
      omega

theorem dirtyLen_aset_mem {κ : Type} [DecidableEq κ]
    (m : List (κ × PEntry)) (k : κ) (v e : PEntry) (h : alookup m k = some e) :
    dirtyLen (aset m k v) + (if e.dirty then 1 else 0)
      = dirtyLen m + (if v.dirty then 1 else 0) := by
  induction m with
  | nil => simp [alookup] at h
  | cons hd t ih =>
    simp only [alookup] at h
    by_cases hk : hd.1 = k
    · rw [if_pos hk] at h
      cases h
      simp only [aset, if_pos hk, dirtyLen_cons]
      omega
    · rw [if_neg hk] at h
      simp only [aset, if_neg hk, dirtyLen_cons]
      have := ih h
      omega

/-- The counter delta of one mark equals the dirty-entry delta of the map. -/
theorem markMap_dirty_delta {κ : Type} [DecidableEq κ]
    (m : List (κ × PEntry)) (cc dc : Int) (key : κ) (value old : Option String) :
    (markMap m cc dc key value old).2.2 + (dirtyLen m : Int)
      = dc + (dirtyLen (markMap m cc dc key value old).1 : Int) := by
  unfold markMap
  cases halk : alookup m key with
  | none =>
    have hlen := dirtyLen_aset_notMem m key
      ⟨old, decide (value ≠ old)⟩ halk
    simp only [halk]
    cases hd : (decide (value ≠ old) : Bool) <;>
      simp only [hd] at hlen ⊢ <;>
      simp only [if_true, if_false, Bool.false_eq_true, ite_true, ite_false] at hlen ⊢ <;>
      rw [hlen] <;> push_cast <;> ring
  | some props =>
    have hlen := dirtyLen_aset_mem m key
      ⟨props.value, decide (value ≠ props.value)⟩ props halk
    simp only [halk]
    cases hd : (decide (value ≠ props.value) : Bool) <;>
      cases hpd : props.dirty <;>
      simp only [hd, hpd] at hlen ⊢ <;>
      simp at hlen ⊢ <;>
      omega

theorem dirtyInv_markNative (c : PropertyCache) (key : Option String)
    (value old : Option String) (h : dirtyInv c) :
    dirtyInv (c.markNative key value old) := by
  unfold dirtyInv dirtyEntries at h ⊢
  unfold PropertyCache.markNative
  have := markMap_dirty_delta c.native c.cleanCount c.dirtyCount key value old
  simp only []
  push_cast at h this ⊢
  omega

theorem dirtyInv_markCustom (c : PropertyCache) (key : Nat)
    (value old : Option String) (h : dirtyInv c) :
    dirtyInv (c.markCustom key value old) := by
  unfold dirtyInv dirtyEntries at h ⊢
  unfold PropertyCache.markCustom
  have := markMap_dirty_delta c.custom c.cleanCount c.dirtyCount key value old
  simp only []
  push_cast at h this ⊢
  omega

theorem dirtyInv_empty : dirtyInv {} := by
  simp [dirtyInv, dirtyEntries, dirtyLen]

theorem dirtyEntries_pos_iff (c : PropertyCache) :
    0 < dirtyEntries c ↔ cacheHasDirty c = true := by
  unfold dirtyEntries cacheHasDirty dirtyLen
  rw [Bool.or_eq_true, List.any_eq_true, List.any_eq_true]
  constructor
  · intro h
    rcases Nat.lt_or_ge 0 (c.native.filter fun kv => kv.2.dirty).length with h1 | h1
    · left
      obtain ⟨x, hx⟩ := List.exists_mem_of_length_pos h1
      obtain ⟨hx1, hx2⟩ := List.mem_filter.mp hx
      exact ⟨x, hx1, hx2⟩
    · right
      have h2 : 0 < (c.custom.filter fun kv => kv.2.dirty).length := by omega
      obtain ⟨x, hx⟩ := List.exists_mem_of_length_pos h2
      obtain ⟨hx1, hx2⟩ := List.mem_filter.mp hx
      exact ⟨x, hx1, hx2⟩
  · rintro (⟨x, hm, hd⟩ | ⟨x, hm, hd⟩)
    · have : x ∈ c.native.filter fun kv => kv.2.dirty := List.mem_filter.mpr ⟨hm, hd⟩
      have := List.length_pos.mpr (List.ne_nil_of_mem this)
      omega
    · have : x ∈ c.custom.filter fun kv => kv.2.dirty := List.mem_filter.mpr ⟨hm, hd⟩
      have := List.length_pos.mpr (List.ne_nil_of_mem this)
      omega

/-! ## Claim theorems: the facade -/

/-- C3: mutated(null) is true exactly when the floating set is nonempty or
some PropertyCache holds a dirty entry.  The source tests the running _dirty
counters, so the statement assumes each cache's counter matches its entries
(the invariant established for mark above, which is how every cache in a
reachable props map is built). -/
theorem mutated_null_iff_dirty_or_floating (st : DiffState)
    (h : ∀ p ∈ st.props, dirtyInv p.2) :
    MutationDiff.mutatedNull st = true ↔
      st.tree.floating ≠ [] ∨ ∃ p ∈ st.props, cacheHasDirty p.2 = true := by
  unfold MutationDiff.mutatedNull
  by_cases hs : st.tree.size ≠ 0
  · rw [if_pos hs]
    simp only [true_iff]
    left
    intro hnil
    exact hs (by simp [TreeState.size, hnil])
  · rw [if_neg hs]
    push_neg at hs
    have hfl : st.tree.floating = [] := List.length_eq_zero.mp hs
    rw [List.any_eq_true]
    constructor
    · rintro ⟨p, hm, hd⟩
      right
      refine ⟨p, hm, ?_⟩
      have hinv := h p hm
      rw [dirtyInv] at hinv
      rw [← dirtyEntries_pos_iff]
      simp only [decide_eq_true_eq] at hd
      omega
    · rintro (hne | ⟨p, hm, hd⟩)
      · exact absurd hfl hne
      · refine ⟨p, hm, ?_⟩
        have hinv := h p hm
        rw [dirtyInv] at hinv
        rw [← dirtyEntries_pos_iff] at hd
        simp only [decide_eq_true_eq]
        omega

/-- A state with one cache marked dirty through the source's mark. -/
def cacheW : PropertyCache :=
  PropertyCache.markNative {} (some "class") (some "y") (some "x")

/-- A concrete MutationDiff state: node 3 has the dirty cache. -/
def stW : DiffState := { props := [(3, cacheW)] }

/-- Witness for C3 at a concrete state. -/
theorem mutated_null_iff_dirty_or_floating_witness :
    (∀ p ∈ stW.props, dirtyInv p.2) ∧ MutationDiff.mutatedNull stW = true :=
  ⟨by decide,
   (mutated_null_iff_dirty_or_floating stW (by decide)).mpr
     (Or.inr ⟨(3, cacheW), by decide, by decide⟩)⟩

/-- C10: diff(filter) is the empty map whenever the filter carries neither
the ORIGINAL nor the MUTATED bit, regardless of the recorded state. -/
theorem diff_empty_without_side_bits (filter : Nat) (dom : LiveDom)
    (g : Option (Nat → Nat → Option String)) (st : DiffState)
    (h1 : filter &&& MutationDiff.ORIGINAL = 0)
    (h2 : filter &&& MutationDiff.MUTATED = 0) :
    MutationDiff.diff filter dom g st = [] := by
  unfold MutationDiff.diff
  rw [h1, h2]
  simp

/-- A live DOM returning fixed values, for concrete evaluations. -/
def domW : LiveDom :=
  { dataOf := fun _ => some "txt", attrOf := fun _ _ => some "y" }

/-- A position triple used by the concrete states below. -/
def posW : Pos := { parent := 100, prev := .nul, next := .nul }

/-- A floating record for node 7 that sits removed from its original spot. -/
def recW : MN := { node := 7, original := some posW, mutated := none }

/-- A cache holding one dirty attribute entry (class: original "x"). -/
def cacheDirtyAttr : PropertyCache :=
  { native := [(some "class", ⟨some "x", true⟩)], cleanCount := 0, dirtyCount := 1 }

/-- A state with a dirty attribute cache (node 4) and a floating record
(node 7). -/
def stDirty : DiffState :=
  { props := [(4, cacheDirtyAttr)],
    tree := { arena := #[recW], floating := [(7, 0)] } }

/-- Witness for C10: every content bit set, both side bits absent, dirty
cache and floating record present, and still an empty diff. -/
theorem diff_empty_without_side_bits_witness :
    (MutationDiff.PROPERTY ||| MutationDiff.CHILDREN) &&& MutationDiff.ORIGINAL = 0 ∧
    MutationDiff.diff (MutationDiff.PROPERTY ||| MutationDiff.CHILDREN) domW none stDirty = [] :=
  ⟨by decide,
   diff_empty_without_side_bits _ domW none stDirty (by decide) (by decide)⟩

/-- The only diff output for stDirty under ALL: node 7's children diff. -/
def logW : MutationDiff.NodeLog :=
  { children := some { original := some (some posW), mutated := some none } }

/-- C5 (code bug): a node whose cache holds a dirty attribute entry is absent
from diff(ALL): the attributes branch tests the undefined class property
MutationDiff.ATTRIBUTES, so it never runs, and with no other dirty parts the
node gets no entry at all. -/
theorem diff_attribute_entry_lost :
    cacheHasDirty cacheDirtyAttr = true ∧
    MutationDiff.diff MutationDiff.ALL domW none stDirty = [(7, logW)] ∧
    alookup (MutationDiff.diff MutationDiff.ALL domW none stDirty) 4 = none := by
  refine ⟨by decide, by decide, by decide⟩

/-- C6 (code bug): synchronize() iterates this.native.values() while
array-destructuring each entry object, which throws a TypeError on any
nonempty cache instead of dropping clean entries and returning the dirty
count. -/
theorem synchronize_throws_on_nonempty :
    PropertyCache.synchronize
      { native := [(some "class", ⟨some "x", false⟩)], cleanCount := 1 }
      = .error "TypeError: object is not iterable" ∧
    PropertyCache.synchronize
      { custom := [(0, ⟨some "v", true⟩)], dirtyCount := 1 }
      = .error "TypeError: object is not iterable" := by
  exact ⟨rfl, rfl⟩

/-- C7 (code bug): revert(node, custom_callback) with a callback provided
always throws a ReferenceError (the method body reads the unbound name
props), before invoking the callback on any dirty custom entry; the dirty
native restores还 happen first. -/
theorem revert_callback_reference_error :
    PropertyCache.revert
      { native := [(some "class", ⟨some "x", true⟩), (none, ⟨some "hi", true⟩)],
        custom := [(0, ⟨some "v", true⟩)], dirtyCount := 3 } 9 true
      = ([.setAttr 9 "class" "x", .setData 9 (some "hi")],
         some "ReferenceError: props is not defined") := by
  exact rfl

/-- A bogus MutationRecord with an unknown type. -/
def bogusRecord : MutationDiff.MRecord := { rtype := "DOMNodeInserted" }

/-- C8 counterexample: record(r) with an unknown type is not rejected: the
switch has no default case, so the call returns normally (no error recorded)
with the state untouched; the claimed invalid-argument error never occurs. -/
theorem record_unknown_type_counterexample :
    MutationDiff.record domW stDirty bogusRecord = stDirty ∧
    (MutationDiff.record domW stDirty bogusRecord).tree.err = none := by
  exact ⟨rfl, rfl⟩

/-- C8 as amended: a notification whose type is none of attributes,
characterData, childList is silently ignored: the state is returned
unchanged and no error is raised. -/
theorem record_unknown_type_ignored (dom : LiveDom) (st : DiffState)
    (r : MutationDiff.MRecord) (h1 : r.rtype ≠ "attributes")
    (h2 : r.rtype ≠ "characterData") (h3 : r.rtype ≠ "childList") :
    MutationDiff.record dom st r = st := by
  unfold MutationDiff.record
  rw [if_neg h1, if_neg h2, if_neg h3]

/-- Witness for the amended C8. -/
theorem record_unknown_type_ignored_witness :
    bogusRecord.rtype ≠ "attributes" ∧
    MutationDiff.record domW stDirty bogusRecord = stDirty :=
  ⟨by decide,
   record_unknown_type_ignored domW stDirty bogusRecord
     (by decide) (by decide) (by decide)⟩

/-! ## Claim theorems: patch_grouped_children (C9) -/

/-- The insertion phase entries that survive phase 1, with their next-side
flags, in spec terms. -/
def keptFlags (gs : List MutationDiff.Group) : List (MutationDiff.Group × Bool) :=
  gs.filterMap fun g =>
    match g.parent with
    | none => none
    | some _ =>
      if MutationDiff.sibUnknown g.next && MutationDiff.sibUnknown g.prev then none
      else some (g, !MutationDiff.sibUnknown g.next)

theorem patchPhase1_spec (gs : List MutationDiff.Group) :
    MutationDiff.patchPhase1 gs =
      (gs.flatMap (fun g => g.nodes),
       (gs.filter MutationDiff.groupInsufficient).length,
       keptFlags gs) := by
  induction gs with
  | nil => rfl
  | cons g rest ih =>
    cases hp : g.parent with
    | none =>
      simp [MutationDiff.patchPhase1, ih, hp, MutationDiff.groupInsufficient,
        keptFlags, List.filter_cons, List.filterMap_cons]
    | some p =>
      by_cases hn : MutationDiff.sibUnknown g.next = true
      · by_cases hv : MutationDiff.sibUnknown g.prev = true
        · simp [MutationDiff.patchPhase1, ih, hp, hn, hv,
            MutationDiff.groupInsufficient, keptFlags, List.filter_cons,
            List.filterMap_cons]
        · rw [Bool.not_eq_true] at hv
          simp [MutationDiff.patchPhase1, ih, hp, hn, hv,
            MutationDiff.groupInsufficient, keptFlags, List.filter_cons,
            List.filterMap_cons]
      · rw [Bool.not_eq_true] at hn
        simp [MutationDiff.patchPhase1, ih, hp, hn,
          MutationDiff.groupInsufficient, keptFlags, List.filter_cons,
          List.filterMap_cons]

@[simp] theorem sibUnknown_node (n : Nat) :
    MutationDiff.sibUnknown (.node n) = false := rfl

@[simp] theorem sibUnknown_nul : MutationDiff.sibUnknown .nul = false := rfl

@[simp] theorem sibUnknown_undef : MutationDiff.sibUnknown .undef = true := rfl

@[simp] theorem sibUnknown_promise (o : Nat) (d : Dir) :
    MutationDiff.sibUnknown (.promise o d) = true := rfl

theorem patchMoves_keptFlags (gs : List MutationDiff.Group) :
    MutationDiff.patchMoves (keptFlags gs) = gs.filterMap MutationDiff.groupMove := by
  induction gs with
  | nil => rfl
  | cons g rest ih =>
    simp only [keptFlags, Bool.and_eq_true] at ih ⊢
    cases hp : g.parent with
    | none =>
      simp only [List.filterMap_cons, MutationDiff.groupMove, hp]
      exact ih
    | some p =>
      by_cases hn : MutationDiff.sibUnknown g.next = true
      · by_cases hv : MutationDiff.sibUnknown g.prev = true
        · simp [List.filterMap_cons, MutationDiff.groupMove, hp, hn, hv, ih]
        · rw [Bool.not_eq_true] at hv
          cases hgp : g.prev with
          | node a =>
            simp [List.filterMap_cons, MutationDiff.patchMoves,
              MutationDiff.groupMove, hp, hn, hv, hgp, ih]
          | nul =>
            simp [List.filterMap_cons, MutationDiff.patchMoves,
              MutationDiff.groupMove, hp, hn, hv, hgp, ih]
          | undef =>
            rw [hgp] at hv
            simp [MutationDiff.sibUnknown] at hv
          | promise a b =>
            rw [hgp] at hv
            simp [MutationDiff.sibUnknown] at hv
      · rw [Bool.not_eq_true] at hn
        cases hgn : g.next with
        | node a =>
          simp [List.filterMap_cons, MutationDiff.patchMoves,
            MutationDiff.groupMove, hp, hn, hgn, ih]
        | nul =>
          simp [List.filterMap_cons, MutationDiff.patchMoves,
            MutationDiff.groupMove, hp, hn, hgn, ih]
        | undef =>
          rw [hgn] at hn
          simp [MutationDiff.sibUnknown] at hn
        | promise a b =>
          rw [hgn] at hn
          simp [MutationDiff.sibUnknown] at hn

/-- C9: patch_grouped_children removes every group's nodes, emits exactly one
diagnostic per group whose parent is present but whose prev and next are both
unknown, and performs a movement for every other parented group: anchored
before the known next sibling (append when next is the container end),
otherwise after the known prev sibling (prepend when prev is the container
start).  Skipped groups do not disturb the rest, and the function is total:
it completes with the diagnostic count rather than aborting. -/
theorem patch_grouped_children_spec (gs : List MutationDiff.Group) :
    MutationDiff.patchGroupedChildren gs =
      { removals := gs.flatMap (fun g => g.nodes),
        warnings := (gs.filter MutationDiff.groupInsufficient).length,
        moves := gs.filterMap MutationDiff.groupMove } := by
  unfold MutationDiff.patchGroupedChildren
  rw [patchPhase1_spec]
  simp only []
  rw [patchMoves_keptFlags]

/-! ## Claim theorems: minimality of the floating set (C2) -/

/-- A sibling slot that is known fixed: the container edge (null), or a node
that is not floating. -/
def sibFixed (σ : TreeState) : Sib → Bool
  | .nul => true
  | .node n => (σ.floatGet n).isNone
  | _ => false

/-- Some floating record has identical original and mutated triples while one
of its mutated siblings is known fixed. -/
def identicalWithFixedSib (σ : TreeState) : Bool :=
  σ.floating.any fun p =>
    match (σ.recOf p.2).original, (σ.recOf p.2).mutated with
    | some o, some m => decide (o = m) && (sibFixed σ m.prev || sibFixed σ m.next)
    | _, _ => false

/-- The floating record of a node has identical original and mutated
position triples. -/
def recIdentical (σ : TreeState) (n : Nat) : Bool :=
  match σ.floatGet n with
  | none => false
  | some i =>
    match (σ.recOf i).original, (σ.recOf i).mutated with
    | some o, some m => decide (o = m)
    | _, _ => false

theorem finalize_assert_none (σ : TreeState)
    (h : (finalizeMutation σ).err = none) :
    assertValidState (finalizeMutation σ) = none := by
  unfold finalizeMutation at h ⊢
  by_cases hc : σ.err.isSome
  · rw [if_pos hc] at h
    rw [h] at hc
    simp at hc
  · rw [if_neg hc] at h ⊢
    cases ha : assertValidState σ with
    | some e =>
      rw [ha] at h
      simp [TreeState.fail] at h
    | none => simp only [ha]

theorem mutation_assert_none (σ : TreeState) (parent : Nat)
    (removed added : List Nat) (prevS nextS : Option Nat)
    (h : (mutation σ parent removed added prevS nextS).err = none) :
    assertValidState (mutation σ parent removed added prevS nextS) = none := by
  unfold mutation at h ⊢
  exact finalize_assert_none _ h

theorem assertValid_reverts (σ : TreeState) (h : assertValidState σ = none) :
    assertReverts σ σ.floating = none := by
  simp only [assertValidState] at h
  generalize hip : (idxPromPass σ σ.floating []).1 = x at h
  cases x with
  | some e0 => exact Option.noConfusion h
  | none =>
    generalize hpc : promChecks σ (idxPromPass σ σ.floating []).2 = y at h
    cases y with
    | some e0 => exact Option.noConfusion h
    | none => exact h

theorem assertReverts_cons (σ : TreeState) (k i : Nat) (rest : List (Nat × Nat))
    (h : assertReverts σ ((k, i) :: rest) = none) :
    assertReverts σ rest = none ∧
    (∀ o m : Pos, (σ.recOf i).original = some o → (σ.recOf i).mutated = some m →
      m.parent = o.parent →
      checkAnchor σ i .prev = none ∧ checkAnchor σ i .next = none) := by
  simp only [assertReverts] at h
  revert h
  cases hm : (σ.recOf i).mutated with
  | none =>
    intro h
    refine ⟨h, ?_⟩
    intro o' m' _ hm' _
    exact Option.noConfusion hm'
  | some m =>
    cases ho : (σ.recOf i).original with
    | none =>
      intro h
      refine ⟨h, ?_⟩
      intro o' m' ho' _ _
      exact Option.noConfusion ho'
    | some o =>
      intro h
      replace h : (if m.parent ≠ o.parent then assertReverts σ rest
          else match checkAnchor σ i Dir.prev with
            | some e => some e
            | none =>
              match checkAnchor σ i Dir.next with
              | some e => some e
              | none => assertReverts σ rest) = none := h
      by_cases hp : m.parent ≠ o.parent
      · rw [if_pos hp] at h
        refine ⟨h, ?_⟩
        intro o' m' ho' hm' hpar'
        injection ho' with ho2
        injection hm' with hm2
        subst ho2
        subst hm2
        exact absurd hpar' hp
      · rw [if_neg hp] at h
        generalize hca : checkAnchor σ i Dir.prev = ca at h
        cases ca with
        | some e => exact Option.noConfusion h
        | none =>
          generalize hcb : checkAnchor σ i Dir.next = cb at h
          cases cb with
          | some e => exact Option.noConfusion h
          | none =>
            refine ⟨h, fun _ _ _ _ _ => ⟨?_, ?_⟩⟩ <;> simp [hca, hcb]

theorem assertReverts_all (σ : TreeState) (l : List (Nat × Nat))
    (h : assertReverts σ l = none) :
    ∀ p ∈ l, ∀ o m : Pos, (σ.recOf p.2).original = some o →
      (σ.recOf p.2).mutated = some m → m.parent = o.parent →
      checkAnchor σ p.2 .prev = none ∧ checkAnchor σ p.2 .next = none := by
  induction l with
  | nil =>
    intro p hp
    exact absurd hp (List.not_mem_nil p)
  | cons q rest ih =>
    obtain ⟨k, i⟩ := q
    obtain ⟨hrest, hhead⟩ := assertReverts_cons σ k i rest h
    intro p hp
    rcases List.mem_cons.mp hp with rfl | hp2
    · exact hhead
    · exact ih hrest p hp2

theorem checkAnchor_identical (σ : TreeState) (i : Nat) (o m : Pos) (d : Dir)
    (ho : (σ.recOf i).original = some o) (hm : (σ.recOf i).mutated = some m)
    (heq : o = m) (hf : sibFixed σ (m.get d) = true) :
    checkAnchor σ i d = some "node position is reverted" := by
  unfold checkAnchor
  rw [ho, hm]
  subst heq
  cases hs : o.get d with
  | nul => simp [checkAnchorLoop, hs]
  | node n =>
    rw [hs] at hf
    simp only [sibFixed] at hf
    rw [Option.isNone_iff_eq_none] at hf
    simp [checkAnchorLoop, hs, hf]
  | undef =>
    rw [hs] at hf
    simp [sibFixed] at hf
  | promise a b =>
    rw [hs] at hf
    simp [sibFixed] at hf

/-- C2 as amended: after a mutation() call that returns (its final validity
assertion did not throw), no floating record has identical original and
mutated triples together with a known-fixed mutated sibling on either side.
Records whose reversal is hidden behind floating or unknown siblings may
persist (see the counterexample). -/
theorem mutation_no_identical_with_fixed_sibling (σ : TreeState) (parent : Nat)
    (removed added : List Nat) (prevS nextS : Option Nat)
    (h : (mutation σ parent removed added prevS nextS).err = none) :
    identicalWithFixedSib (mutation σ parent removed added prevS nextS) = false := by
  have hassert := mutation_assert_none σ parent removed added prevS nextS h
  generalize hr : mutation σ parent removed added prevS nextS = r at hassert ⊢
  have hrev := assertValid_reverts r hassert
  by_contra hcontra
  rw [Bool.not_eq_false] at hcontra
  unfold identicalWithFixedSib at hcontra
  rw [List.any_eq_true] at hcontra
  obtain ⟨p, hmem, hp⟩ := hcontra
  cases ho : (r.recOf p.2).original with
  | none =>
    rw [ho] at hp
    simp at hp
  | some o =>
    cases hm : (r.recOf p.2).mutated with
    | none =>
      rw [ho, hm] at hp
      simp at hp
    | some m =>
      rw [ho, hm] at hp
      simp only [Bool.and_eq_true, decide_eq_true_eq, Bool.or_eq_true] at hp
      obtain ⟨heq, hfix⟩ := hp
      have hpar : m.parent = o.parent := by rw [heq]
      obtain ⟨hc1, hc2⟩ := assertReverts_all r r.floating hrev p hmem o m ho hm hpar
      rcases hfix with hfp | hfn
      · have hD := checkAnchor_identical r p.2 o m .prev ho hm heq hfp
        rw [hc1] at hD
        exact Option.noConfusion hD
      · have hD := checkAnchor_identical r p.2 o m .next ho hm heq hfn
        rw [hc2] at hD
        exact Option.noConfusion hD

/-- Witness for the amended C2 at a concrete call. -/
theorem mutation_no_identical_with_fixed_sibling_witness :
    (mutation {} 100 [0] [] none none).err = none ∧
    identicalWithFixedSib (mutation {} 100 [0] [] none none) = false :=
  ⟨by decide,
   mutation_no_identical_with_fixed_sibling {} 100 [0] [] none none (by decide)⟩

/-- The three-record stream of the C2 counterexample: remove node 0, remove
node 1, then re-add nodes 1 and 2 after node 0 (the live tree having been
changed in between by mutations the tracker was not shown). -/
def stC2 : TreeState :=
  mutation (mutation (mutation {} 100 [0] [] none (some 1))
    100 [1] [] none (some 2)) 100 [] [1, 2] (some 0) none

/-- C2 counterexample: the third mutation() returns normally (no throw), yet
node 1 stays in the floating set with identical original and mutated
position triples (parent 100, prev node 0, next node 2). -/
theorem identical_record_reachable :
    stC2.err = none ∧
    recIdentical stC2 1 = true ∧
    stC2.floatGet 1 = some 1 ∧
    (stC2.recOf 1).original = some { parent := 100, prev := .node 0, next := .node 2 } ∧
    (stC2.recOf 1).mutated = some { parent := 100, prev := .node 0, next := .node 2 } := by
  refine ⟨by decide, by decide, by decide, by decide, by decide⟩

/-! ## Claim theorems: promise-vs-promise during a resume walk (C4) -/

/-- The four-record stream of the C4 failing input: remove node 1, remove
node 3 (creating a pending prev-promise attached to node 1's record), add
node 4 after node 1, then remove node 5 whose point-in-time prev is node 4. -/
def stC4pre : TreeState :=
  mutation (mutation (mutation {} 100 [1] [] (some 0) (some 2))
    100 [3] [] (some 1) none) 100 [] [4] (some 1) none

/-- The state after the fourth record. -/
def stC4 : TreeState :=
  mutation stC4pre 100 [5] [] (some 4) none

/-- C4 (code bug): on the fourth record the resume walk for node 5's original
prev sibling reads node 1's mutated prev slot, which holds the pending
SiblingPromise of node 3; the counter c4 records exactly this
promise-vs-promise read.  The walk then resolves node 5's original prev to
the promise object itself (arena record 3 is node 5), and the call throws
its own validity assertion "promise has multiple origins".  No earlier call
performed such a read (c4 was 0 before). -/
theorem resume_walk_reads_promise :
    stC4pre.err = none ∧
    stC4pre.c4 = 0 ∧
    stC4.c4 = 1 ∧
    stC4.err = some "promise has multiple origins" ∧
    (stC4.recOf 3).node = 5 ∧
    (stC4.recOf 3).original
      = some { parent := 100, prev := .promise 1 .prev, next := .nul } := by
  refine ⟨by decide, by decide, by decide, by decide, by decide, by decide⟩

end MDiff
